import Mathlib

/-!
Shallow embedding of the Q-learning swarm controller
(src/controllers/q_swarm_controller/q_swarm_controller.cpp).

Numeric values (C++ `float`) are modelled as exact rationals; machine
`int` is modelled as `ℤ`.  The ARGoS collaborators (positioning sensor,
proximity sensor, wheel actuator) and the socket peer are modelled as a
per-tick input record (`TickInput`): the sensor readings of the tick and
an oracle for the network calls.  Effects of a tick (wheel commands,
protocol messages handed to `send`) are collected in `TickOutput`.

The C++ comparison `(a - b).Length() < t` (Euclidean length, a square
root) is embedded without square roots as `0 < t ∧ ‖a-b‖² < t²`, which
is equivalent (see `distLt_iff_sqrt`).

`std::stoi` throwing (`invalid_argument` / `out_of_range`) is modelled
as `none`; an exception escaping `ControlStep` makes the whole tick
return `none`.
-/

namespace QSwarm

/-- 2-d vector, mirroring `argos::CVector2` restricted to the x/y plane. -/
structure Vec2 where
  x : ℚ
  y : ℚ
  deriving DecidableEq

/-- Squared Euclidean norm of the difference `a - b`
(`(a - b).Length()` squared in the source). -/
def sqDist (a b : Vec2) : ℚ :=
  (a.x - b.x) * (a.x - b.x) + (a.y - b.y) * (a.y - b.y)

/-- The source's `(a - b).Length() < t`, encoded without the square
root: `√d < t ↔ 0 < t ∧ d < t²` for `d ≥ 0` (proved below in
`distLt_iff_sqrt`). -/
def distLt (a b : Vec2) (t : ℚ) : Bool :=
  decide (0 < t) && decide (sqDist a b < t * t)

/-- `sqDist` is nonnegative. -/
lemma sqDist_nonneg (a b : Vec2) : 0 ≤ sqDist a b := by
  have hx : 0 ≤ (a.x - b.x) * (a.x - b.x) := mul_self_nonneg _
  have hy : 0 ≤ (a.y - b.y) * (a.y - b.y) := mul_self_nonneg _
  simpa [sqDist] using add_nonneg hx hy

/-- `distLt` is exactly the source's `Length() < t` comparison: the
Boolean holds iff the real square root of the squared distance is
below `t`. -/
lemma distLt_iff_sqrt (a b : Vec2) (t : ℚ) :
    distLt a b t = true ↔ Real.sqrt ((sqDist a b : ℚ) : ℝ) < (t : ℝ) := by
  constructor
  · intro h
    have h' : (0 : ℚ) < t ∧ sqDist a b < t * t := by
      simpa [distLt, decide_eq_true_eq, Bool.and_eq_true] using h
    have ht : (0 : ℝ) < (t : ℝ) := by exact_mod_cast h'.1
    have hd : ((sqDist a b : ℚ) : ℝ) < (t : ℝ) * (t : ℝ) := by exact_mod_cast h'.2
    have := (Real.sqrt_lt' ht).mpr (by nlinarith [hd])
    simpa [sq] using this
  · intro h
    have hd0 : (0 : ℝ) ≤ ((sqDist a b : ℚ) : ℝ) := by
      exact_mod_cast sqDist_nonneg a b
    have ht : (0 : ℝ) < (t : ℝ) := lt_of_le_of_lt (Real.sqrt_nonneg _) h
    have := (Real.sqrt_lt' ht).mp h
    have hd : sqDist a b < t * t := by
      have : ((sqDist a b : ℚ) : ℝ) < (t : ℝ) * (t : ℝ) := by nlinarith [this]
      exact_mod_cast this
    have ht' : (0 : ℚ) < t := by exact_mod_cast ht
    simp [distLt, decide_eq_true_eq, ht', hd]

/-! ### `std::stoi` and reply parsing -/

/-- C locale `isspace`, as skipped by `std::stoi`. -/
def isWs (c : Char) : Bool :=
  c = ' ' || c = '\t' || c = '\n' || c = '\x0b' || c = '\x0c' || c = '\r'

/-- Decimal value of a digit run (most significant first). -/
def digitsVal (l : List Char) : ℕ :=
  l.foldl (fun acc c => 10 * acc + (c.toNat - ('0').toNat)) 0

/-- `std::stoi` on a character sequence: skip leading whitespace, an
optional sign, then at least one decimal digit (else it throws
`invalid_argument`, modelled `none`); the value must fit a 32-bit
`int` (else `out_of_range`, modelled `none`). -/
def stoi? (l : List Char) : Option ℤ :=
  let l1 := l.dropWhile isWs
  match l1 with
  | '-' :: rest => stoiCore rest true
  | '+' :: rest => stoiCore rest false
  | _ => stoiCore l1 false
where
  stoiCore (l : List Char) (neg : Bool) : Option ℤ :=
    let ds := l.takeWhile (fun c => c.isDigit)
    if ds = [] then none
    else
      let n : ℕ := digitsVal ds
      if neg then
        if n ≤ 2147483648 then some (-(n : ℤ)) else none
      else
        if n ≤ 2147483647 then some (n : ℤ) else none

/-- `response.find('|')` followed by `substr(pos + 1)`: the characters
after the first `'|'`, or `none` when no `'|'` occurs. -/
def afterFirstBar : List Char → Option (List Char)
  | [] => none
  | c :: rest => if c = '|' then some rest else afterFirstBar rest

/-! ### Controller state and per-tick environment -/

/-- The mutable member fields of `QSwarmController` (actuator/sensor
handles excluded: they are collaborators, modelled through
`TickInput`/`TickOutput`). -/
structure QState where
  robotIdNum : ℤ
  goalPosition : Vec2
  episode : ℤ
  steps : ℤ
  maxSteps : ℤ
  maxEpisodes : ℤ
  socket : ℤ
  connected : Bool
  previousPosition : Vec2
  velocity : ℚ
  collisionThreshold : ℚ
  goalThreshold : ℚ
  episodeDone : Bool
  episodeReward : ℚ
  deriving DecidableEq

/-- Network oracle for one tick: the value `rand()` would return, whether
the `send` syscall of the STATE message reports success, and the raw
bytes `recv` yields for the action reply (empty list models a failed
or empty read). -/
structure NetOracle where
  rand : ℕ
  sendStateOk : Bool
  stateReply : List Char
  deriving DecidableEq

/-- Environment of one `ControlStep` call: the positioning reading (the
sensor is read several times in a tick, always yielding this same
value), the proximity readings, and the network oracle. -/
structure TickInput where
  position : Vec2
  prox : List ℚ
  net : NetOracle
  deriving DecidableEq

/-- An outbound protocol message handed to `SendMessage`.  The numeric
text formatting is abstracted: the message is kept as its parsed
fields (tag, robot id, payload). -/
inductive Msg where
  | state (robotId : ℤ) (vals : List ℚ)
  | reward (robotId : ℤ) (r : ℚ) (done : Bool)
  deriving DecidableEq

/-- The robot id field carried by a protocol message. -/
def Msg.robotId : Msg → ℤ
  | Msg.state i _ => i
  | Msg.reward i _ _ => i

/-- Effects of one `ControlStep` call: every `SetLinearVelocity`
command (left, right) in order, and every message whose `send` syscall
was reached. -/
structure TickOutput where
  wheels : List (ℚ × ℚ)
  sent : List Msg
  deriving DecidableEq

/-! ### The controller's functions -/

/-- `QSwarmController::SendMessage`: guarded by
`m_nSocket < 0 || !m_bConnected`; otherwise the syscall runs and the
oracle decides whether it reported success (`sent > 0`).  Returns
(success, messages that reached `send`). -/
def sendMessage (s : QState) (ok : Bool) (m : Msg) : Bool × List Msg :=
  if s.socket < 0 || s.connected = false then (false, [])
  else (ok, [m])

/-- `QSwarmController::ReceiveMessage`: empty on a closed/unconnected
socket or failed read; otherwise the received bytes with one trailing
newline stripped. -/
def receiveMessage (s : QState) (raw : List Char) : List Char :=
  if s.socket < 0 || s.connected = false then []
  else if raw = [] then []
  else if raw.getLast? = some '\n' then raw.dropLast else raw

/-- `QSwarmController::GetState`: `[x, y, goal_x, goal_y, prox…]`. -/
def getState (s : QState) (inp : TickInput) : List ℚ :=
  [inp.position.x, inp.position.y, s.goalPosition.x, s.goalPosition.y] ++ inp.prox

/-- `QSwarmController::GetActionFromQNetwork`.  Returns the chosen
action (`none` models a `std::stoi` exception escaping to the caller)
together with the protocol messages sent.  Disconnected: `rand() % 4`.
Send failure or empty reply: default action `0`.  Reply with a `'|'`:
`stoi` of everything after the first `'|'`.  Reply without `'|'`:
default action `0`. -/
def getActionFromQNetwork (s : QState) (inp : TickInput) :
    Option ℤ × List Msg :=
  if s.connected = false then (some ((inp.net.rand % 4 : ℕ) : ℤ), [])
  else
    let m := Msg.state s.robotIdNum (getState s inp)
    let sendRes := sendMessage s inp.net.sendStateOk m
    if sendRes.1 = false then (some 0, sendRes.2)
    else
      let response := receiveMessage s inp.net.stateReply
      if response = [] then (some 0, sendRes.2)
      else
        match afterFirstBar response with
        | some rest => (stoi? rest, sendRes.2)
        | none => (some 0, sendRes.2)

/-- `QSwarmController::ExecuteAction`: action id to one
(left, right) wheel command. -/
def executeAction (v : ℚ) (action : ℤ) : ℚ × ℚ :=
  if action = 0 then (v, v)
  else if action = 1 then (-v * (1/2), v * (1/2))
  else if action = 2 then (v * (1/2), -v * (1/2))
  else if action = 3 then (0, 0)
  else (v, v)

/-- `QSwarmController::ReachedGoal`. -/
def reachedGoal (s : QState) (pos : Vec2) : Bool :=
  distLt pos s.goalPosition s.goalThreshold

/-- `QSwarmController::DetectCollision`: updates
`m_cPreviousPosition` to the current position, returns whether the
distance moved is below the collision threshold or some proximity
reading is above `0.9`. -/
def detectCollision (s : QState) (pos : Vec2) (prox : List ℚ) :
    Bool × QState :=
  let moved := distLt pos s.previousPosition s.collisionThreshold
  let s' := { s with previousPosition := pos }
  (moved || prox.any (fun v => decide ((9 : ℚ)/10 < v)), s')

/-- `QSwarmController::CalculateReward`: (reward, done, state after the
call).  `DetectCollision` (and hence the `previousPosition` update)
runs only when the goal check fails. -/
def calculateReward (s : QState) (pos : Vec2) (prox : List ℚ) :
    ℚ × Bool × QState :=
  if reachedGoal s pos then (10, true, s)
  else
    let col := detectCollision s pos prox
    if col.1 then (-5, true, col.2)
    else (-(1 : ℚ)/10, false, col.2)

/-- `QSwarmController::SendReward`: no-op when disconnected; otherwise
sends the REWARD message (result ignored) and waits for the
acknowledgment (content ignored).  No state field changes. -/
def sendRewardMsgs (s : QState) (r : ℚ) (done : Bool) : List Msg :=
  if s.connected = false then []
  else (sendMessage s true (Msg.reward s.robotIdNum r done)).2

/-- `QSwarmController::ResetEpisode`. -/
def resetEpisode (s : QState) (pos : Vec2) : QState :=
  { s with
    episode := s.episode + 1
    steps := 0
    episodeDone := false
    episodeReward := 0
    previousPosition := pos }

/-- `QSwarmController::ControlStep`.  `none` models an uncaught
`std::stoi` exception aborting the tick. -/
def controlStep (s : QState) (inp : TickInput) :
    Option (QState × TickOutput) :=
  if s.maxEpisodes ≤ s.episode then
    some (s, ⟨[(0, 0)], []⟩)
  else if s.episodeDone then
    some (resetEpisode s inp.position, ⟨[(0, 0)], []⟩)
  else
    let s1 := { s with steps := s.steps + 1 }
    let act := getActionFromQNetwork s1 inp
    match act.1 with
    | none => none
    | some action =>
      let wheels := executeAction s1.velocity action
      let rd := calculateReward s1 inp.position inp.prox
      let s2 := rd.2.2
      let s3 := { s2 with episodeReward := s2.episodeReward + rd.1 }
      let rmsgs := sendRewardMsgs s3 rd.1 rd.2.1
      let s4 :=
        if rd.2.1 = true || s3.maxSteps ≤ s3.steps then
          { s3 with episodeDone := true }
        else s3
      some (s4, ⟨[wheels], act.2 ++ rmsgs⟩)

/-- `QSwarmController::Reset` (host-driven experiment reset). -/
def hostReset (s : QState) (pos : Vec2) : QState × TickOutput :=
  ({ s with
      episode := 0
      steps := 0
      episodeDone := false
      episodeReward := 0
      previousPosition := pos },
   ⟨[(0, 0)], []⟩)

/-- Index of the last decimal digit in the name
(`find_last_of("0123456789")`), `none` when no digit occurs. -/
def findLastDigitIdx (l : List Char) : Option ℕ :=
  match l with
  | [] => none
  | c :: rest =>
    match findLastDigitIdx rest with
    | some i => some (i + 1)
    | none => if c.isDigit then some 0 else none

/-- Robot id derivation in `QSwarmController::Init` lines 56-60:
`stoi` of the substring starting at the LAST digit of the name; the
constructor default `0` when the name has no digit.  (`stoi` cannot
throw here: the substring starts with a digit and, the run of digits
from the last digit having length one, its value is at most 9, so the
`getD 0` branch is unreachable.) -/
def initRobotId (name : List Char) : ℤ :=
  match findLastDigitIdx name with
  | none => 0
  | some p => (stoi? (name.drop p)).getD 0

/-- Iterate `controlStep` over a list of tick inputs, keeping only the
state (`none` as soon as some tick raises). -/
def runTicks (s : QState) : List TickInput → Option QState
  | [] => some s
  | inp :: rest =>
    match controlStep s inp with
    | none => none
    | some (s', _) => runTicks s' rest

/-! ### Derived forms of the running branch, for the lemmas below -/

/-- The state after the running branch of `ControlStep` (the branch
taken when the episode is neither finished nor done). -/
def runningNext (s : QState) (inp : TickInput) : QState :=
  let s1 := { s with steps := s.steps + 1 }
  let rd := calculateReward s1 inp.position inp.prox
  let s3 := { rd.2.2 with episodeReward := rd.2.2.episodeReward + rd.1 }
  if rd.2.1 = true || s3.maxSteps ≤ s3.steps then
    { s3 with episodeDone := true }
  else s3

/-- The REWARD traffic of the running branch of `ControlStep`. -/
def rewardTraffic (s : QState) (inp : TickInput) : List Msg :=
  let s1 := { s with steps := s.steps + 1 }
  let rd := calculateReward s1 inp.position inp.prox
  sendRewardMsgs { rd.2.2 with episodeReward := rd.2.2.episodeReward + rd.1 }
    rd.1 rd.2.1

/-- A tick input on which the running branch resolves an action and the
reward evaluation reports neither goal nor collision. -/
def benignTick (s : QState) (inp : TickInput) : Bool :=
  (getActionFromQNetwork { s with steps := s.steps + 1 } inp).1.isSome
  && !(reachedGoal s inp.position)
  && !(distLt inp.position s.previousPosition s.collisionThreshold)
  && !(inp.prox.any (fun v => decide ((9 : ℚ)/10 < v)))

/-- Every tick of the trace is benign (along the trajectory of
`controlStep`). -/
def benignAll (s : QState) (l : List TickInput) : Bool :=
  match l with
  | [] => true
  | inp :: rest =>
    benignTick s inp &&
    match controlStep s inp with
    | some p => benignAll p.1 rest
    | none => false

/-! ### Helper lemmas -/

/-- The state handed back by `CalculateReward`: unchanged on a
goal tick, otherwise only `previousPosition` moved to the current
position. -/
lemma calculateReward_state (s : QState) (pos : Vec2) (prox : List ℚ) :
    (calculateReward s pos prox).2.2 =
      if reachedGoal s pos = true then s
      else { s with previousPosition := pos } := by
  by_cases hg : reachedGoal s pos
  · simp [calculateReward, hg]
  · simp [calculateReward, detectCollision, hg]
    split <;> rfl

/-- The reward value of `CalculateReward` by cases. -/
lemma calculateReward_fst (s : QState) (pos : Vec2) (prox : List ℚ) :
    (calculateReward s pos prox).1 =
      (if reachedGoal s pos = true then (10 : ℚ)
       else if (detectCollision s pos prox).1 = true then -5
       else -(1 : ℚ)/10) := by
  by_cases hg : reachedGoal s pos
  · simp [calculateReward, hg]
  · by_cases hc : (detectCollision s pos prox).1
    · simp [calculateReward, hg, hc]
    · simp [calculateReward, hg, hc]

/-- The done flag of `CalculateReward` by cases. -/
lemma calculateReward_done (s : QState) (pos : Vec2) (prox : List ℚ) :
    (calculateReward s pos prox).2.1 =
      (reachedGoal s pos || (detectCollision s pos prox).1) := by
  by_cases hg : reachedGoal s pos
  · simp [calculateReward, hg]
  · by_cases hc : (detectCollision s pos prox).1
    · simp [calculateReward, hg, hc]
    · simp [calculateReward, hg, hc]

/-- In the running branch, once the action resolves, `ControlStep`
produces `runningNext` and the recorded traffic. -/
lemma controlStep_running_eq (s : QState) (inp : TickInput) (a : ℤ)
    (h1 : ¬ s.maxEpisodes ≤ s.episode) (h2 : s.episodeDone = false)
    (hact : (getActionFromQNetwork { s with steps := s.steps + 1 } inp).1
              = some a) :
    controlStep s inp =
      some (runningNext s inp,
        ⟨[executeAction s.velocity a],
         (getActionFromQNetwork { s with steps := s.steps + 1 } inp).2
           ++ rewardTraffic s inp⟩) := by
  have h2' : ¬ s.episodeDone = true := by simp [h2]
  simp only [controlStep]
  rw [if_neg h1, if_neg h2', hact]
  simp [runningNext, rewardTraffic]

/-- In the running branch, a `stoi` exception aborts the tick. -/
lemma controlStep_running_none (s : QState) (inp : TickInput)
    (h1 : ¬ s.maxEpisodes ≤ s.episode) (h2 : s.episodeDone = false)
    (hact : (getActionFromQNetwork { s with steps := s.steps + 1 } inp).1
              = none) :
    controlStep s inp = none := by
  have h2' : ¬ s.episodeDone = true := by simp [h2]
  simp only [controlStep]
  rw [if_neg h1, if_neg h2', hact]

/-- Exhaustive shape of a non-raising `ControlStep` call. -/
lemma controlStep_some_shape (s : QState) (inp : TickInput)
    (s' : QState) (out : TickOutput)
    (h : controlStep s inp = some (s', out)) :
    (s.maxEpisodes ≤ s.episode ∧ s' = s) ∨
    (s.episode < s.maxEpisodes ∧ s.episodeDone = true ∧
      s' = resetEpisode s inp.position) ∨
    (s.episode < s.maxEpisodes ∧ s.episodeDone = false ∧
      s' = runningNext s inp) := by
  by_cases h1 : s.maxEpisodes ≤ s.episode
  · left
    refine ⟨h1, ?_⟩
    simp [controlStep, h1] at h
    exact h.1.symm
  · have hlt : s.episode < s.maxEpisodes := lt_of_not_le h1
    by_cases h2 : s.episodeDone
    · right; left
      refine ⟨hlt, h2, ?_⟩
      simp [controlStep, h1, h2] at h
      exact h.1.symm
    · right; right
      refine ⟨hlt, eq_false_of_ne_true h2, ?_⟩
      cases hact : (getActionFromQNetwork { s with steps := s.steps + 1 } inp).1 with
      | none =>
        rw [controlStep_running_none s inp h1 (eq_false_of_ne_true h2) hact] at h
        exact absurd h (by simp)
      | some a =>
        rw [controlStep_running_eq s inp a h1 (eq_false_of_ne_true h2) hact] at h
        have := (Option.some.injEq _ _).mp h
        exact (congrArg Prod.fst this).symm

/-- Fields of `runningNext`: everything except `steps`,
`previousPosition`, `episodeReward` and `episodeDone` is untouched. -/
lemma runningNext_frame (s : QState) (inp : TickInput) :
    (runningNext s inp).episode = s.episode ∧
    (runningNext s inp).maxSteps = s.maxSteps ∧
    (runningNext s inp).maxEpisodes = s.maxEpisodes ∧
    (runningNext s inp).connected = s.connected ∧
    (runningNext s inp).socket = s.socket ∧
    (runningNext s inp).robotIdNum = s.robotIdNum ∧
    (runningNext s inp).goalPosition = s.goalPosition ∧
    (runningNext s inp).velocity = s.velocity ∧
    (runningNext s inp).collisionThreshold = s.collisionThreshold ∧
    (runningNext s inp).goalThreshold = s.goalThreshold ∧
    (runningNext s inp).steps = s.steps + 1 := by
  simp only [runningNext, calculateReward_state]
  split <;> split <;> simp

/-- A benign tick from a running state: one step forward, one step
penalty, `previousPosition` snapped to the tick's position, the done
flag raised exactly by the step limit. -/
lemma runningNext_benign (s : QState) (inp : TickInput)
    (hdone : s.episodeDone = false)
    (hb : benignTick s inp = true) :
    runningNext s inp =
      { s with
          steps := s.steps + 1
          previousPosition := inp.position
          episodeReward := s.episodeReward - (1 : ℚ)/10
          episodeDone := decide (s.maxSteps ≤ s.steps + 1) } := by
  have hb' := hb
  simp only [benignTick, Bool.and_eq_true, Bool.not_eq_true',
    Option.isSome_iff_exists] at hb'
  obtain ⟨⟨⟨⟨a, hact⟩, hg⟩, hmv⟩, hpx⟩ := hb'
  simp only [reachedGoal] at hg
  rcases le_or_lt s.maxSteps (s.steps + 1) with hle | hlt
  · simp [runningNext, calculateReward_state, calculateReward_fst,
      calculateReward_done, reachedGoal, detectCollision, hg, hmv, hpx,
      hdone, hle, QState.mk.injEq]
    ring
  · simp [runningNext, calculateReward_state, calculateReward_fst,
      calculateReward_done, reachedGoal, detectCollision, hg, hmv, hpx,
      hdone, not_le_of_lt hlt, QState.mk.injEq]
    ring

/-- A benign trace of length `maxSteps - steps` drives a running
episode to its step limit: the done flag rises on the last tick and
each tick contributes one `-0.1` penalty. -/
lemma runTicks_countdown :
    ∀ (inputs : List TickInput) (s : QState),
      benignAll s inputs = true →
      s.episodeDone = false →
      s.episode < s.maxEpisodes →
      s.steps + inputs.length = s.maxSteps →
      1 ≤ inputs.length →
      ∃ s', runTicks s inputs = some s' ∧
        s'.episodeDone = true ∧
        s'.steps = s.maxSteps ∧
        s'.episode = s.episode ∧
        s'.maxSteps = s.maxSteps ∧
        s'.episodeReward = s.episodeReward - (inputs.length : ℚ)/10 := by
  intro inputs
  induction inputs with
  | nil => intro s _ _ _ _ hlen; exact absurd hlen (by simp)
  | cons inp rest ih =>
    intro s hben hdone hep hcount _
    have hb : benignTick s inp = true := by
      have := hben
      simp only [benignAll, Bool.and_eq_true] at this
      exact this.1
    obtain ⟨a, hact⟩ : ∃ a,
        (getActionFromQNetwork { s with steps := s.steps + 1 } inp).1 = some a := by
      have := hb
      simp only [benignTick, Bool.and_eq_true, Option.isSome_iff_exists] at this
      exact this.1.1.1
    have h1 : ¬ s.maxEpisodes ≤ s.episode := not_le_of_lt hep
    have hstep := controlStep_running_eq s inp a h1 hdone hact
    have hnext := runningNext_benign s inp hdone hb
    rcases rest with _ | ⟨inp2, rest2⟩
    · -- last tick: the step counter reaches the limit
      have hmax : s.maxSteps = s.steps + 1 := by
        simpa using hcount.symm
      refine ⟨runningNext s inp, ?_, ?_, ?_, ?_, ?_, ?_⟩
      · simp [runTicks, hstep]
      · rw [hnext]; simp [hmax]
      · rw [hnext]; simp [hmax]
      · rw [hnext]
      · rw [hnext]
      · rw [hnext]; simp
    · -- an inner tick: the limit is not yet reached
      have hlt : s.steps + 1 < s.maxSteps := by
        have h := hcount
        push_cast [List.length_cons] at h
        omega
      have hdone' : (runningNext s inp).episodeDone = false := by
        rw [hnext]
        simp [not_le_of_lt hlt]
      have hben' : benignAll (runningNext s inp) (inp2 :: rest2) = true := by
        have := hben
        simp only [benignAll, Bool.and_eq_true] at this
        rcases this with ⟨_, hm⟩
        rw [hstep] at hm
        simpa [benignAll] using hm
      have hep' : (runningNext s inp).episode < (runningNext s inp).maxEpisodes := by
        have hf := runningNext_frame s inp
        rw [hf.1, hf.2.2.1]
        exact hep
      have hcount' : (runningNext s inp).steps + ((inp2 :: rest2).length : ℤ)
          = (runningNext s inp).maxSteps := by
        have hf := runningNext_frame s inp
        rw [hf.2.2.2.2.2.2.2.2.2.2, hf.2.1]
        have : s.steps + ((inp :: inp2 :: rest2).length : ℤ) = s.maxSteps := hcount
        simp only [List.length_cons, Nat.cast_add, Nat.cast_one] at this ⊢
        omega
      obtain ⟨s', hrun, hd, hs, he, hm, hr⟩ :=
        ih (runningNext s inp) hben' hdone' hep' hcount' (by simp)
      refine ⟨s', ?_, hd, ?_, ?_, ?_, ?_⟩
      · simp only [runTicks, hstep]
        simp only [runTicks] at hrun
        exact hrun
      · rw [hs, (runningNext_frame s inp).2.1]
      · rw [he, (runningNext_frame s inp).1]
      · rw [hm, (runningNext_frame s inp).2.1]
      · rw [hr, hnext]
        simp only [List.length_cons, Nat.cast_add, Nat.cast_one]
        ring

/-- Traffic recorded by `SendMessage` is the message it was handed. -/
lemma sendMessage_mem (s : QState) (ok : Bool) (m m' : Msg)
    (h : m' ∈ (sendMessage s ok m).2) : m' = m := by
  by_cases hg : s.socket < 0 ∨ s.connected = false
  · simp [sendMessage, hg] at h
  · simp [sendMessage, hg] at h
    exact h

/-- When connected, all traffic of `GetActionFromQNetwork` is the
traffic of the STATE send. -/
lemma getAction_traffic (s : QState) (inp : TickInput)
    (hc : s.connected = true) :
    (getActionFromQNetwork s inp).2 =
      (sendMessage s inp.net.sendStateOk
        (Msg.state s.robotIdNum (getState s inp))).2 := by
  have hcf : (s.connected = false) = False := by simp [hc]
  simp only [getActionFromQNetwork, hcf, if_false]
  repeat' split
  all_goals rfl

/-- Every message sent by `GetActionFromQNetwork` carries the agent's
robot id. -/
lemma getAction_sent_tag (s : QState) (inp : TickInput) (m : Msg)
    (h : m ∈ (getActionFromQNetwork s inp).2) : m.robotId = s.robotIdNum := by
  by_cases hc : s.connected = false
  · simp [getActionFromQNetwork, hc] at h
  · have hc' : s.connected = true := by simpa using hc
    rw [getAction_traffic s inp hc'] at h
    have := sendMessage_mem s inp.net.sendStateOk _ m h
    rw [this]
    rfl

/-- Every message sent by `SendReward` carries the agent's robot id. -/
lemma sendReward_tag (s : QState) (r : ℚ) (d : Bool) (m : Msg)
    (h : m ∈ sendRewardMsgs s r d) : m.robotId = s.robotIdNum := by
  by_cases hc : s.connected = false
  · simp [sendRewardMsgs, hc] at h
  · simp only [sendRewardMsgs, hc, if_false] at h
    have := sendMessage_mem s true _ m h
    rw [this]
    rfl

/-- All fields other than `previousPosition` survive
`CalculateReward` unchanged. -/
lemma calculateReward_frame (s : QState) (pos : Vec2) (prox : List ℚ) :
    (calculateReward s pos prox).2.2.maxSteps = s.maxSteps ∧
    (calculateReward s pos prox).2.2.steps = s.steps ∧
    (calculateReward s pos prox).2.2.episode = s.episode ∧
    (calculateReward s pos prox).2.2.maxEpisodes = s.maxEpisodes ∧
    (calculateReward s pos prox).2.2.episodeDone = s.episodeDone ∧
    (calculateReward s pos prox).2.2.episodeReward = s.episodeReward ∧
    (calculateReward s pos prox).2.2.robotIdNum = s.robotIdNum ∧
    (calculateReward s pos prox).2.2.connected = s.connected ∧
    (calculateReward s pos prox).2.2.socket = s.socket ∧
    (calculateReward s pos prox).2.2.velocity = s.velocity := by
  rw [calculateReward_state]
  split <;> simp

/-- On a running tick, the done flag after the tick is raised exactly
when the evaluation reported done or the step counter reached the
limit. -/
lemma runningNext_episodeDone (s : QState) (inp : TickInput)
    (hdone : s.episodeDone = false) :
    (runningNext s inp).episodeDone =
      ((calculateReward { s with steps := s.steps + 1 }
          inp.position inp.prox).2.1
        || decide (s.maxSteps ≤ s.steps + 1)) := by
  have hf := calculateReward_frame { s with steps := s.steps + 1 }
    inp.position inp.prox
  simp only [runningNext]
  split
  next h =>
    simp only [Bool.or_eq_true, decide_eq_true_eq] at h
    rcases h with h | h
    · simp [h]
    · have h' : s.maxSteps ≤ s.steps + 1 := by
        simpa [hf.1, hf.2.1] using h
      simp [h']
  next h =>
    simp only [Bool.or_eq_true, decide_eq_true_eq, not_or] at h
    obtain ⟨h1, h2⟩ := h
    have h1' : (calculateReward { s with steps := s.steps + 1 }
        inp.position inp.prox).2.1 = false := eq_false_of_ne_true h1
    have h2' : ¬ s.maxSteps ≤ s.steps + 1 := by
      intro hc
      apply h2
      simpa [hf.1, hf.2.1] using hc
    have e := hf.2.2.2.2.1
    simp only [h1', decide_eq_false h2', Bool.or_false]
    simpa [e] using hdone

/-- The success flag of `SendMessage`. -/
lemma sendMessage_fst (s : QState) (ok : Bool) (m : Msg) :
    (sendMessage s ok m).1 =
      (if s.socket < 0 ∨ s.connected = false then false else ok) := by
  by_cases hg : s.socket < 0 ∨ s.connected = false
  · simp [sendMessage, hg]
  · simp [sendMessage, hg]

/-- `runningNext` reads the tick input only through the position and
the proximity readings. -/
lemma runningNext_congr (s : QState) (inp1 inp2 : TickInput)
    (hp : inp1.position = inp2.position) (hx : inp1.prox = inp2.prox) :
    runningNext s inp1 = runningNext s inp2 := by
  simp only [runningNext, hp, hx]

/-! ### Concrete sample data for the witnesses -/

/-- A connected agent with goal (18, 18) and the default configuration,
previous position (5, 5). -/
def sampleState : QState :=
  { robotIdNum := 3
    goalPosition := ⟨18, 18⟩
    episode := 0
    steps := 0
    maxSteps := 500
    maxEpisodes := 1000
    socket := 4
    connected := true
    previousPosition := ⟨5, 5⟩
    velocity := 1/10
    collisionThreshold := 1/100
    goalThreshold := 1/2
    episodeDone := false
    episodeReward := 0 }

/-- A tick at the origin with a well-formed action reply. -/
def sampleInput : TickInput :=
  { position := ⟨0, 0⟩
    prox := []
    net := { rand := 7, sendStateOk := true,
             stateReply := ("ACTION|2\n").toList } }

/-! ### Claims -/

/-- C1: on a Running-state tick, the reward/termination evaluation
yields (+10, done) whenever the goal distance check holds — also when
the collision condition holds at the same time —, otherwise (-5, done)
when the collision condition (too little movement, or some proximity
reading above 0.9) holds, and otherwise (-0.1, not done). -/
theorem claimC1_calculateReward_cases (s : QState) (pos : Vec2)
    (prox : List ℚ) :
    (distLt pos s.goalPosition s.goalThreshold = true →
      (calculateReward s pos prox).1 = 10 ∧
      (calculateReward s pos prox).2.1 = true) ∧
    (distLt pos s.goalPosition s.goalThreshold = false →
      (distLt pos s.previousPosition s.collisionThreshold
        || prox.any (fun v => decide ((9 : ℚ)/10 < v))) = true →
      (calculateReward s pos prox).1 = -5 ∧
      (calculateReward s pos prox).2.1 = true) ∧
    (distLt pos s.goalPosition s.goalThreshold = false →
      (distLt pos s.previousPosition s.collisionThreshold
        || prox.any (fun v => decide ((9 : ℚ)/10 < v))) = false →
      (calculateReward s pos prox).1 = -(1 : ℚ)/10 ∧
      (calculateReward s pos prox).2.1 = false) := by
  refine ⟨?_, ?_, ?_⟩
  · intro hg
    simp [calculateReward, reachedGoal, hg]
  · intro hg hcol
    simp [calculateReward, reachedGoal, detectCollision, hg, hcol]
  · intro hg hcol
    simp only [Bool.or_eq_false_iff] at hcol
    simp [calculateReward, reachedGoal, detectCollision, hg, hcol.1, hcol.2]

/-- C1 witness: reaching the goal while "stuck" (zero movement) still
yields (+10, done). -/
theorem claimC1_calculateReward_cases_witness :
    (calculateReward { sampleState with previousPosition := ⟨18, 18⟩ }
        ⟨18, 18⟩ []).1 = 10 ∧
    (calculateReward { sampleState with previousPosition := ⟨18, 18⟩ }
        ⟨18, 18⟩ []).2.1 = true :=
  (claimC1_calculateReward_cases
    { sampleState with previousPosition := ⟨18, 18⟩ } ⟨18, 18⟩ []).1 (by
      simp [distLt, sqDist, sampleState])

/-- C2 counterexample: on a tick whose goal check succeeds,
`previous_position` is NOT updated — `DetectCollision`, which performs
the update, is short-circuited by the goal branch.  Here the agent
moves from (5, 5) to the goal (18, 18) and `previous_position` stays
(5, 5). -/
theorem claimC2_previousPosition_cex :
    reachedGoal sampleState ⟨18, 18⟩ = true ∧
    (calculateReward sampleState ⟨18, 18⟩ []).2.2.previousPosition
      = (⟨5, 5⟩ : Vec2) ∧
    (calculateReward sampleState ⟨18, 18⟩ []).2.2.previousPosition
      ≠ (⟨18, 18⟩ : Vec2) := by
  have hg : reachedGoal sampleState ⟨18, 18⟩ = true := by
    simp [reachedGoal, distLt, sqDist, sampleState]
  have hst : (calculateReward sampleState ⟨18, 18⟩ []).2.2 = sampleState := by
    rw [calculateReward_state, if_pos hg]
  refine ⟨hg, ?_, ?_⟩
  · rw [hst]
    rfl
  · rw [hst]
    simp [sampleState, Vec2.mk.injEq]

/-- C2 amended: `previous_position` is updated to the current position
exactly on the ticks where the goal check fails (whenever
`DetectCollision` is evaluated); on a goal-success tick it is left
unchanged. -/
theorem claimC2_previousPosition_amended (s : QState) (pos : Vec2)
    (prox : List ℚ) :
    (calculateReward s pos prox).2.2.previousPosition =
      (if reachedGoal s pos = true then s.previousPosition else pos) := by
  rw [calculateReward_state]
  split <;> rfl

/-- C5: once `episode_index >= max_episodes`, every tick issues only a
stop command, sends nothing, and leaves the whole state unchanged —
hence the condition persists and the loop is a permanent no-op. -/
theorem claimC5_finished_noop (s : QState) (inp : TickInput)
    (h : s.maxEpisodes ≤ s.episode) :
    controlStep s inp = some (s, ⟨[(0, 0)], []⟩) := by
  simp [controlStep, h]

/-- C5 witness: a concrete finished state. -/
theorem claimC5_finished_noop_witness :
    controlStep { sampleState with episode := 1000 } sampleInput
      = some ({ sampleState with episode := 1000 }, ⟨[(0, 0)], []⟩) :=
  claimC5_finished_noop { sampleState with episode := 1000 } sampleInput
    (by decide)

/-- C9: the action executor maps 0 to (+v, +v), 1 to (-0.5v, +0.5v),
2 to (+0.5v, -0.5v), 3 to (0, 0) and any other integer to (+v, +v);
in a running tick it issues exactly this one wheel command. -/
theorem claimC9_executeAction_table :
    (∀ v : ℚ, executeAction v 0 = (v, v)) ∧
    (∀ v : ℚ, executeAction v 1 = (-((1/2 : ℚ) * v), (1/2 : ℚ) * v)) ∧
    (∀ v : ℚ, executeAction v 2 = ((1/2 : ℚ) * v, -((1/2 : ℚ) * v))) ∧
    (∀ v : ℚ, executeAction v 3 = (0, 0)) ∧
    (∀ (v : ℚ) (a : ℤ), a ≠ 0 → a ≠ 1 → a ≠ 2 → a ≠ 3 →
      executeAction v a = (v, v)) ∧
    (∀ (s : QState) (inp : TickInput) (a : ℤ) (s' : QState)
        (out : TickOutput),
      s.episode < s.maxEpisodes → s.episodeDone = false →
      (getActionFromQNetwork { s with steps := s.steps + 1 } inp).1 = some a →
      controlStep s inp = some (s', out) →
      out.wheels = [executeAction s.velocity a]) := by
  refine ⟨?_, ?_, ?_, ?_, ?_, ?_⟩
  · intro v; simp [executeAction]
  · intro v; simp [executeAction]; ring
  · intro v; simp [executeAction]; ring
  · intro v; simp [executeAction]
  · intro v a h0 h1 h2 h3; simp [executeAction, h0, h1, h2, h3]
  · intro s inp a s' out hep hdone hact hstep
    rw [controlStep_running_eq s inp a (not_le_of_lt hep) hdone hact] at hstep
    have h := Option.some.inj hstep
    rw [Prod.mk.injEq] at h
    rw [← h.2]

/-- C9 witness: the fail-open default for an out-of-range id. -/
theorem claimC9_executeAction_table_witness :
    executeAction (1/10) 7 = (1/10, 1/10) :=
  claimC9_executeAction_table.2.2.2.2.1 (1/10) 7
    (by decide) (by decide) (by decide) (by decide)

/-- C10: the host-driven `Reset` restores episode_index to 0, zeroes
step_index and accumulated_reward, clears episode_done, stops the
wheels, re-snapshots previous_position from the current position, and
leaves socket, connected flag, robot id and all configuration values
unchanged; it sends no protocol traffic. -/
theorem claimC10_hostReset (s : QState) (pos : Vec2) :
    (hostReset s pos).1.episode = 0 ∧
    (hostReset s pos).1.steps = 0 ∧
    (hostReset s pos).1.episodeReward = 0 ∧
    (hostReset s pos).1.episodeDone = false ∧
    (hostReset s pos).1.previousPosition = pos ∧
    (hostReset s pos).1.socket = s.socket ∧
    (hostReset s pos).1.connected = s.connected ∧
    (hostReset s pos).1.robotIdNum = s.robotIdNum ∧
    (hostReset s pos).1.goalPosition = s.goalPosition ∧
    (hostReset s pos).1.velocity = s.velocity ∧
    (hostReset s pos).1.maxSteps = s.maxSteps ∧
    (hostReset s pos).1.maxEpisodes = s.maxEpisodes ∧
    (hostReset s pos).1.collisionThreshold = s.collisionThreshold ∧
    (hostReset s pos).1.goalThreshold = s.goalThreshold ∧
    (hostReset s pos).2.wheels = [(0, 0)] ∧
    (hostReset s pos).2.sent = [] := by
  simp [hostReset]

/-- C6: a tick entered with episode_done = true and episodes remaining
performs exactly the episode reset — episode index + 1, step counter
and accumulated reward zeroed, done flag cleared, previous position
re-snapshotted from the current position, a stop command, and no
protocol traffic — and the episode index is incremented in no other
situation. -/
theorem claimC6_episode_reset :
    (∀ (s : QState) (inp : TickInput),
      s.episode < s.maxEpisodes → s.episodeDone = true →
      controlStep s inp =
        some ({ s with episode := s.episode + 1, steps := 0,
                       episodeReward := 0, episodeDone := false,
                       previousPosition := inp.position },
              ⟨[(0, 0)], []⟩)) ∧
    (∀ (s : QState) (inp : TickInput) (s' : QState) (out : TickOutput),
      controlStep s inp = some (s', out) →
      s'.episode =
        (if s.episode < s.maxEpisodes ∧ s.episodeDone = true
         then s.episode + 1 else s.episode)) := by
  constructor
  · intro s inp hep hdone
    have h1 : ¬ s.maxEpisodes ≤ s.episode := not_le_of_lt hep
    simp only [controlStep, resetEpisode]
    rw [if_neg h1, if_pos hdone]
  · intro s inp s' out h
    rcases controlStep_some_shape s inp s' out h with
      ⟨h1, rfl⟩ | ⟨h1, h2, rfl⟩ | ⟨h1, h2, rfl⟩
    · rw [if_neg]
      rintro ⟨hlt, _⟩
      exact absurd h1 (not_le_of_lt hlt)
    · rw [if_pos ⟨h1, h2⟩]
      rfl
    · rw [(runningNext_frame s inp).1, if_neg]
      rintro ⟨_, hd⟩
      rw [h2] at hd
      exact Bool.false_ne_true hd

/-- A sample state sitting at an episode boundary. -/
def doneState : QState := { sampleState with episodeDone := true }

/-- C6 witness: a concrete reset tick. -/
theorem claimC6_episode_reset_witness :
    controlStep doneState sampleInput =
      some ({ doneState with episode := doneState.episode + 1,
                             steps := 0, episodeReward := 0,
                             episodeDone := false,
                             previousPosition := sampleInput.position },
            ⟨[(0, 0)], []⟩) :=
  claimC6_episode_reset.1 doneState sampleInput (by decide) rfl

/-- C7: from a fresh episode, if every tick of the trace resolves its
action and reports neither goal nor collision, then after exactly
max_steps running ticks episode_done is true and the accumulated
reward is -0.1 * max_steps; moreover, on any running tick the done
flag is set exactly when the evaluation reported done or the step
counter reached max_steps. -/
theorem claimC7_step_limit :
    (∀ (n : ℕ) (s : QState) (inputs : List TickInput),
      s.steps = 0 → s.episodeReward = 0 → s.episodeDone = false →
      s.episode < s.maxEpisodes → s.maxSteps = (n : ℤ) → 1 ≤ n →
      inputs.length = n → benignAll s inputs = true →
      ∃ s', runTicks s inputs = some s' ∧ s'.episodeDone = true ∧
        s'.episodeReward = -((n : ℚ)/10) ∧ s'.steps = (n : ℤ)) ∧
    (∀ (s : QState) (inp : TickInput) (a : ℤ),
      s.episodeDone = false → s.episode < s.maxEpisodes →
      (getActionFromQNetwork { s with steps := s.steps + 1 } inp).1 = some a →
      ∀ s' out, controlStep s inp = some (s', out) →
        (s'.episodeDone = true ↔
          ((calculateReward { s with steps := s.steps + 1 }
              inp.position inp.prox).2.1 = true
            ∨ s.maxSteps ≤ s.steps + 1))) := by
  constructor
  · intro n s inputs hsteps hrew hdone hep hmax hn hlen hben
    have hcount : s.steps + (inputs.length : ℤ) = s.maxSteps := by
      rw [hsteps, hlen, hmax]
      ring
    have hlen1 : 1 ≤ inputs.length := by rw [hlen]; exact hn
    obtain ⟨s', hrun, hd, hs, _, _, hr⟩ :=
      runTicks_countdown inputs s hben hdone hep hcount hlen1
    refine ⟨s', hrun, hd, ?_, ?_⟩
    · rw [hr, hrew, hlen]
      ring
    · rw [hs, hmax]
  · intro s inp a hdone hep hact s' out h
    rw [controlStep_running_eq s inp a (not_le_of_lt hep) hdone hact] at h
    have h' := Option.some.inj h
    rw [Prod.mk.injEq] at h'
    rw [← h'.1, runningNext_episodeDone s inp hdone]
    simp only [Bool.or_eq_true, decide_eq_true_eq]

/-- A disconnected agent one step away from its step limit. -/
def stepLimitState : QState :=
  { sampleState with maxSteps := 1, connected := false, socket := -1 }

/-- A tick that moves the agent without reaching goal or obstacle. -/
def stepLimitInput : TickInput :=
  { position := ⟨1, 1⟩
    prox := []
    net := { rand := 2, sendStateOk := false, stateReply := [] } }

/-- C7 witness: with max_steps = 1, one benign tick ends the episode
with accumulated reward -0.1. -/
theorem claimC7_step_limit_witness :
    ∃ s', runTicks stepLimitState [stepLimitInput] = some s' ∧
      s'.episodeDone = true ∧
      s'.episodeReward = -(((1 : ℕ) : ℚ)/10) ∧
      s'.steps = ((1 : ℕ) : ℤ) :=
  claimC7_step_limit.1 1 stepLimitState [stepLimitInput]
    rfl rfl rfl (by decide) (by decide) (by decide) rfl
    (by
      simp [benignAll, benignTick, controlStep, getActionFromQNetwork,
        reachedGoal, distLt, sqDist, stepLimitState, stepLimitInput,
        sampleState]
      norm_num)

/-- C8: per-tick I/O failures degrade to safe defaults without
stalling the tick: disconnected requests return `rand() % 4`, which is
one of the four action ids; a failed state send or an empty reply
returns action 0; under any of these failures a running tick still
completes with the usual `runningNext` state update and exactly one
wheel command; and the episode bookkeeping never depends on the
network oracle, only on the sensor readings. -/
theorem claimC8_io_failure_defaults :
    (∀ (s : QState) (inp : TickInput), s.connected = false →
      (getActionFromQNetwork s inp).1 = some ((inp.net.rand % 4 : ℕ) : ℤ) ∧
      (((inp.net.rand % 4 : ℕ) : ℤ) = 0 ∨ ((inp.net.rand % 4 : ℕ) : ℤ) = 1 ∨
        ((inp.net.rand % 4 : ℕ) : ℤ) = 2 ∨ ((inp.net.rand % 4 : ℕ) : ℤ) = 3)) ∧
    (∀ (s : QState) (inp : TickInput), s.connected = true →
      ((sendMessage s inp.net.sendStateOk
          (Msg.state s.robotIdNum (getState s inp))).1 = false ∨
        receiveMessage s inp.net.stateReply = []) →
      (getActionFromQNetwork s inp).1 = some 0) ∧
    (∀ (s : QState) (inp : TickInput), s.episodeDone = false →
      s.episode < s.maxEpisodes →
      (s.connected = false ∨ inp.net.sendStateOk = false ∨ s.socket < 0 ∨
        receiveMessage { s with steps := s.steps + 1 } inp.net.stateReply
          = []) →
      ∃ out, controlStep s inp = some (runningNext s inp, out) ∧
        out.wheels.length = 1) ∧
    (∀ (s : QState) (inp1 inp2 : TickInput) (s1' s2' : QState)
        (o1 o2 : TickOutput),
      inp1.position = inp2.position → inp1.prox = inp2.prox →
      controlStep s inp1 = some (s1', o1) →
      controlStep s inp2 = some (s2', o2) →
      s1'.steps = s2'.steps ∧ s1'.episodeReward = s2'.episodeReward ∧
      s1'.episodeDone = s2'.episodeDone ∧ s1'.episode = s2'.episode ∧
      s1'.previousPosition = s2'.previousPosition) := by
  refine ⟨?_, ?_, ?_, ?_⟩
  · intro s inp hc
    refine ⟨by simp [getActionFromQNetwork, hc], ?_⟩
    have : inp.net.rand % 4 < 4 := Nat.mod_lt _ (by omega)
    omega
  · intro s inp hc hfail
    have hcf : (s.connected = false) = False := by simp [hc]
    simp only [getActionFromQNetwork, hcf, if_false]
    rcases hfail with hf | hf
    · simp [hf]
    · by_cases hok : (sendMessage s inp.net.sendStateOk
          (Msg.state s.robotIdNum (getState s inp))).1 = false
      · simp [hok]
      · simp [hok, hf]
  · intro s inp hdone hep hany
    have h1 : ¬ s.maxEpisodes ≤ s.episode := not_le_of_lt hep
    obtain ⟨a, ha⟩ : ∃ a,
        (getActionFromQNetwork { s with steps := s.steps + 1 } inp).1
          = some a := by
      by_cases hc : s.connected = false
      · refine ⟨((inp.net.rand % 4 : ℕ) : ℤ), ?_⟩
        simp [getActionFromQNetwork, hc]
      · have hc' : s.connected = true := by simpa using hc
        refine ⟨0, ?_⟩
        have hcf : (({ s with steps := s.steps + 1 } : QState).connected
            = false) = False := by simp [hc']
        simp only [getActionFromQNetwork, hcf, if_false]
        rcases hany with hc2 | hsend | hsock | hrecv
        · exact absurd hc2 hc
        · simp [sendMessage_fst, hsend]
        · have hsock' : ({ s with steps := s.steps + 1 } : QState).socket < 0 :=
            hsock
          simp [sendMessage_fst, hsock']
        · by_cases hok : (sendMessage { s with steps := s.steps + 1 }
              inp.net.sendStateOk
              (Msg.state ({ s with steps := s.steps + 1 } : QState).robotIdNum
                (getState { s with steps := s.steps + 1 } inp))).1 = false
          · simp [hok]
          · simp [hok, hrecv]
    exact ⟨_, controlStep_running_eq s inp a h1 hdone ha, rfl⟩
  · intro s inp1 inp2 s1' s2' o1 o2 hp hx h1 h2
    have e1 := controlStep_some_shape s inp1 s1' o1 h1
    have e2 := controlStep_some_shape s inp2 s2' o2 h2
    rcases e1 with ⟨ha, he1⟩ | ⟨ha, hb, he1⟩ | ⟨ha, hb, he1⟩ <;>
      rcases e2 with ⟨hc, he2⟩ | ⟨hc, hd, he2⟩ | ⟨hc, hd, he2⟩
    · rw [he1, he2]
      exact ⟨rfl, rfl, rfl, rfl, rfl⟩
    · exact absurd ha (not_le_of_lt hc)
    · exact absurd ha (not_le_of_lt hc)
    · exact absurd hc (not_le_of_lt ha)
    · rw [he1, he2]
      simp [resetEpisode, hp]
    · rw [hb] at hd
      exact absurd hd (by simp)
    · exact absurd hc (not_le_of_lt ha)
    · rw [hd] at hb
      exact absurd hb (by simp)
    · rw [he1, he2, runningNext_congr s inp1 inp2 hp hx]
      exact ⟨rfl, rfl, rfl, rfl, rfl⟩

/-- C8 witness: the disconnected fallback at a concrete input. -/
theorem claimC8_io_failure_defaults_witness :
    (getActionFromQNetwork { sampleState with connected := false }
        sampleInput).1 = some ((sampleInput.net.rand % 4 : ℕ) : ℤ) ∧
    (((sampleInput.net.rand % 4 : ℕ) : ℤ) = 0 ∨
      ((sampleInput.net.rand % 4 : ℕ) : ℤ) = 1 ∨
      ((sampleInput.net.rand % 4 : ℕ) : ℤ) = 2 ∨
      ((sampleInput.net.rand % 4 : ℕ) : ℤ) = 3) :=
  claimC8_io_failure_defaults.1 { sampleState with connected := false }
    sampleInput rfl

/-! ### Reply parsing (C3) and robot id derivation (C4) -/

/-- A whitespace character is never a digit. -/
lemma isWs_eq_false_of_isDigit (c : Char) (h : c.isDigit = true) :
    isWs c = false := by
  cases hval : isWs c
  · rfl
  · exfalso
    simp only [isWs, Bool.or_eq_true, decide_eq_true_eq] at hval
    rcases hval with ((((h1 | h1) | h1) | h1) | h1) | h1 <;> subst h1 <;>
      exact absurd h (by decide)

/-- The code-point bounds of a decimal digit. -/
lemma toNat_le_of_isDigit (c : Char) (h : c.isDigit = true) :
    48 ≤ c.toNat ∧ c.toNat ≤ 57 := by
  simp only [Char.isDigit, Bool.and_eq_true, decide_eq_true_eq] at h
  obtain ⟨h1, h2⟩ := h
  constructor
  · have : (48 : UInt32).toNat ≤ c.val.toNat := by exact_mod_cast h1
    simpa [Char.toNat] using this
  · have : c.val.toNat ≤ (57 : UInt32).toNat := by exact_mod_cast h2
    simpa [Char.toNat] using this

/-- `std::stoi` on a single digit character yields its value. -/
lemma stoi_single_digit (c : Char) (h : c.isDigit = true) :
    stoi? [c] = some ((c.toNat - ('0').toNat : ℕ) : ℤ) := by
  have hw := isWs_eq_false_of_isDigit c h
  have hb := toNat_le_of_isDigit c h
  have h0 : ('0').toNat = 48 := rfl
  have hdrop : ([c].dropWhile isWs) = [c] := by
    simp [List.dropWhile, hw]
  have hcm : c ≠ '-' := by
    intro hc
    subst hc
    exact absurd h (by decide)
  have hcp : c ≠ '+' := by
    intro hc
    subst hc
    exact absurd h (by decide)
  have ht : [c].takeWhile (fun x => x.isDigit) = [c] := by
    simp [List.takeWhile, h]
  have hle : c.toNat - ('0').toNat ≤ 2147483647 := by
    have := hb.2
    omega
  simp only [stoi?, hdrop]
  split
  next rest heq =>
    exact absurd (List.cons.inj heq).1 hcm
  next rest heq =>
    exact absurd (List.cons.inj heq).1 hcp
  next =>
    simp only [stoi?.stoiCore, ht]
    simp [digitsVal, h0]
    omega

/-- The position returned by `find_last_of("0123456789")` on a name
ending in a digit is the final position. -/
lemma findLastDigitIdx_append_digit (name : List Char) (c : Char)
    (h : c.isDigit = true) :
    findLastDigitIdx (name ++ [c]) = some name.length := by
  induction name with
  | nil => simp [findLastDigitIdx, h]
  | cons d rest ih => simp [findLastDigitIdx, ih]

/-- Without a digit in the name, `find_last_of` reports no position. -/
lemma findLastDigitIdx_none (name : List Char)
    (h : ∀ c ∈ name, c.isDigit = false) :
    findLastDigitIdx name = none := by
  induction name with
  | nil => rfl
  | cons d rest ih =>
    have hd : d.isDigit = false := h d (by simp)
    have hrest := ih (fun c hc => h c (by simp [hc]))
    simp [findLastDigitIdx, hrest, hd]

/-- C3 counterexample: the reply "ACTION|x" (delimiter present, text
after it not parseable) does NOT fall back to action 0 — `std::stoi`
raises, and the exception (modelled `none`) escapes to the caller. -/
theorem claimC3_decode_cex :
    (getActionFromQNetwork sampleState
      { position := ⟨0, 0⟩
        prox := []
        net := { rand := 0, sendStateOk := true,
                 stateReply := ("ACTION|x").toList } }).1 = none ∧
    (getActionFromQNetwork sampleState
      { position := ⟨0, 0⟩
        prox := []
        net := { rand := 0, sendStateOk := true,
                 stateReply := ("ACTION|x").toList } }).1 ≠ some 0 := by
  constructor
  · decide
  · decide

/-- C3 amended: a reply without a `'|'` falls back to action 0, but
when a `'|'` is present the text after it goes through `std::stoi`,
whose result — including a raised exception on unparseable text — is
returned to the caller unguarded. -/
theorem claimC3_decode_amended (s : QState) (inp : TickInput)
    (hc : s.connected = true)
    (hsend : (sendMessage s inp.net.sendStateOk
        (Msg.state s.robotIdNum (getState s inp))).1 = true)
    (hresp : receiveMessage s inp.net.stateReply ≠ []) :
    (afterFirstBar (receiveMessage s inp.net.stateReply) = none →
      (getActionFromQNetwork s inp).1 = some 0) ∧
    (∀ rest, afterFirstBar (receiveMessage s inp.net.stateReply) = some rest →
      (getActionFromQNetwork s inp).1 = stoi? rest) := by
  have hcf : (s.connected = false) = False := by simp [hc]
  have hsf : ((sendMessage s inp.net.sendStateOk
      (Msg.state s.robotIdNum (getState s inp))).1 = false) = False := by
    simp [hsend]
  constructor
  · intro hbar
    simp [getActionFromQNetwork, hcf, hsf, hresp, hbar]
  · intro rest hbar
    simp [getActionFromQNetwork, hcf, hsf, hresp, hbar]

/-- C3 witness: the delimiter-free reply "garbage" falls back to 0. -/
theorem claimC3_decode_amended_witness :
    (getActionFromQNetwork sampleState
      { position := ⟨0, 0⟩
        prox := []
        net := { rand := 0, sendStateOk := true,
                 stateReply := ("garbage").toList } }).1 = some 0 :=
  (claimC3_decode_amended sampleState
    { position := ⟨0, 0⟩
      prox := []
      net := { rand := 0, sendStateOk := true,
               stateReply := ("garbage").toList } }
    rfl (by decide) (by decide)).1 (by decide)

/-- C4 counterexample: the name "fb12" yields id 2, not 12 — the code
parses from the LAST digit (`find_last_of`), not from the first of the
trailing digits. -/
theorem claimC4_robotId_cex :
    initRobotId (("fb12").toList) = 2 ∧
    initRobotId (("fb12").toList) ≠ 12 := by
  constructor
  · decide
  · decide

/-- C4 amended: the id is `stoi` of the name's suffix starting at its
LAST digit — so a name ending in digit `c` yields the value of that
single digit; a name without a digit keeps the constructor default 0;
and every protocol message sent by a tick carries the agent's id. -/
theorem claimC4_robotId_amended :
    (∀ (name : List Char) (c : Char), c.isDigit = true →
      initRobotId (name ++ [c]) = ((c.toNat - ('0').toNat : ℕ) : ℤ)) ∧
    (∀ name : List Char, (∀ c ∈ name, c.isDigit = false) →
      initRobotId name = 0) ∧
    (∀ (s : QState) (inp : TickInput) (s' : QState) (out : TickOutput)
        (m : Msg),
      controlStep s inp = some (s', out) → m ∈ out.sent →
      m.robotId = s.robotIdNum) := by
  refine ⟨?_, ?_, ?_⟩
  · intro name c h
    simp only [initRobotId, findLastDigitIdx_append_digit name c h,
      List.drop_left, stoi_single_digit c h, Option.getD_some]
  · intro name h
    simp [initRobotId, findLastDigitIdx_none name h]
  · intro s inp s' out m hstep hm
    by_cases h1 : s.maxEpisodes ≤ s.episode
    · simp [controlStep, h1] at hstep
      rw [← hstep.2] at hm
      simp at hm
    · by_cases h2 : s.episodeDone = true
      · simp only [controlStep] at hstep
        rw [if_neg h1, if_pos h2] at hstep
        rw [← (Prod.mk.injEq _ _ _ _).mp (Option.some.inj hstep) |>.2] at hm
        simp at hm
      · have h2' : s.episodeDone = false := eq_false_of_ne_true h2
        cases hact : (getActionFromQNetwork
            { s with steps := s.steps + 1 } inp).1 with
        | none =>
          rw [controlStep_running_none s inp h1 h2' hact] at hstep
          exact absurd hstep (by simp)
        | some a =>
          rw [controlStep_running_eq s inp a h1 h2' hact] at hstep
          have h := (Prod.mk.injEq _ _ _ _).mp (Option.some.inj hstep)
          rw [← h.2] at hm
          simp only [List.mem_append] at hm
          rcases hm with hm | hm
          · have := getAction_sent_tag { s with steps := s.steps + 1 } inp m hm
            simpa using this
          · simp only [rewardTraffic] at hm
            have htag := sendReward_tag _ _ _ m hm
            rw [htag]
            have hfr := (calculateReward_frame { s with steps := s.steps + 1 }
              inp.position inp.prox).2.2.2.2.2.2.1
            simpa using hfr

/-- C4 witness: a name ending in the digit 7 yields id 7, and a
digit-free name yields 0. -/
theorem claimC4_robotId_amended_witness :
    initRobotId (("agent").toList ++ ['7']) = 7 ∧
    initRobotId (("agent").toList) = 0 :=
  ⟨by
    have := claimC4_robotId_amended.1 (("agent").toList) '7' (by decide)
    simpa using this,
   claimC4_robotId_amended.2.1 (("agent").toList) (by decide)⟩

end QSwarm
